import Mathlib

/-!
Verification of the FHIR client's generic resource-retrieval pipeline
(`fhir_client.py` and `fhir_objects/procedure.py`): query construction
(`_build_url`), status classification (`_check_status`), recursive
pagination collection (`_collect`), typed-object construction
(`Procedure.__init__` and its siblings), and the `get_all_patients`
facade.  HTTP transport is modelled as a pure function from URL to
response; Python exceptions are modelled with `Except`; the unbounded
Python recursion of `_collect` is modelled with explicit fuel, with a
distinguished `outOfFuel` error marking non-termination within the
given bound.
-/

namespace FHIR

/-- A raw FHIR resource dictionary: its `resourceType` tag plus the rest
of its fields, kept opaque. -/
structure Resource where
  resourceType : String
  fields : List (String × String)
deriving DecidableEq, Repr

/-- One element of a Bundle's `entry` array: wraps the raw resource
dictionary (`d['resource']`). -/
structure Entry where
  resource : Resource
deriving DecidableEq, Repr

/-- One element of a Bundle's `link` array: a relation tag and a URL. -/
structure Link where
  relation : String
  url : String
deriving DecidableEq, Repr

/-- The parsed JSON of a search-result Bundle as `_collect` reads it:
`none` models the absence of the corresponding key in the JSON dict. -/
structure Bundle where
  link : Option (List Link)
  entry : Option (List Entry)
deriving DecidableEq, Repr

/-- An HTTP response: status code and parsed JSON body. -/
structure Response where
  status_code : Nat
  body : Bundle
deriving DecidableEq, Repr

/-- The typed domain object produced by a constructor such as `Patient`
or `Procedure`: it carries the raw resource dictionary it was built
from. -/
structure FHIRObj where
  resource : Resource
deriving DecidableEq, Repr

/-- The Python exceptions the pipeline can raise: `KeyError` from a dict
subscript on a missing key, `requests.HTTPError` from
`raise_for_status`, `ValueError` from a typed constructor, and
`outOfFuel` marking that the modelled recursion exceeded its fuel
bound. -/
inductive Err where
  | keyError (key : String)
  | httpError (status : Nat)
  | valueError (msg : String)
  | outOfFuel
deriving DecidableEq, Repr

/-- Embeds `FHIRClient._check_status`: a status code is OK iff it equals
`requests.codes.ok`, i.e. 200. -/
def check_status (status_code : Nat) : Bool :=
  status_code == 200

/-- Embeds `requests.Response.raise_for_status`: raises `HTTPError`
carrying the status exactly when the status code is a client error
(4xx) or server error (5xx); any other code returns without raising. -/
def raise_for_status (status_code : Nat) : Except Err Unit :=
  if 400 ≤ status_code ∧ status_code < 600 then
    .error (.httpError status_code)
  else
    .ok ()

/-- Embeds `os.path.join` on the two-argument form used by
`_build_url`: an absolute second component wins; otherwise the parts
are joined with a single slash. -/
def osPathJoin (a b : String) : String :=
  if b.data.head? = some '/' then b
  else if a = "" then b
  else if a.data.getLast? = some '/' then a ++ b
  else a ++ "/" ++ b

/-- Embeds `FHIRClient._build_url`: joins the server URL with the
resource path; appends `?` when the keyword-argument dict is non-empty;
then, for each parameter whose value is truthy (a non-empty string),
appends `name=value&` in insertion order. -/
def build_url (server_url path : String) (query_params : List (String × String)) : String :=
  let base_url := osPathJoin server_url path
  let base_url := if query_params.isEmpty then base_url else base_url ++ "?"
  query_params.foldl
    (fun u p => if p.2 != "" then u ++ p.1 ++ "=" ++ p.2 ++ "&" else u)
    base_url

/-- Embeds the typed-object constructors (`Procedure.__init__` in
`fhir_objects/procedure.py`, and its `Patient`/`Condition`/
`Observation` siblings): if the resource dictionary's `resourceType`
tag differs from the declared resource-type name the constructor raises
`ValueError` and no object is produced; otherwise the object wrapping
the dictionary is returned. -/
def fhirConstructor (name : String) (resource_dict : Resource) : Except Err FHIRObj :=
  if resource_dict.resourceType ≠ name then
    .error (.valueError ("Can not generate a " ++ name ++ " from " ++ resource_dict.resourceType))
  else
    .ok ⟨resource_dict⟩

/-- Embeds `Procedure.__init__`: the `Procedure` constructor. -/
def procedureInit : Resource → Except Err FHIRObj :=
  fhirConstructor "Procedure"

/-- Embeds the list comprehension of `_collect` applied to an
already-filtered entry list: builds one typed object per entry, left to
right, propagating the first constructor exception. -/
def constructAll (name : String) : List Entry → Except Err (List FHIRObj)
  | [] => .ok []
  | d :: rest =>
    match fhirConstructor name d.resource with
    | .error e => .error e
    | .ok obj =>
      match constructAll name rest with
      | .error e => .error e
      | .ok objs => .ok (obj :: objs)

/-- Embeds the whole comprehension
`[constructor(resource_dict=d['resource'], ...) for d in entry if
d['resource']['resourceType'] == constructor.__name__]`. -/
def buildEntries (name : String) (entries : List Entry) : Except Err (List FHIRObj) :=
  constructAll name (entries.filter (fun d => d.resource.resourceType == name))

/-- Embeds the `for link in result_json['link']` loop of `_collect`:
threads the mutable `result` accumulator through the links; a `next`
link is fetched, and on a 200 status the recursive collection
(`recur`) REPLACES the accumulator, on a 4xx/5xx status the loop
raises, and on any other status `raise_for_status` is a no-op and the
loop continues; non-`next` links are skipped. -/
def collectLinks (srv : String → Response)
    (recur : Bundle → Except Err (List FHIRObj)) :
    List Link → List FHIRObj → Except Err (List FHIRObj)
  | [], result => .ok result
  | link :: rest, result =>
    if link.relation == "next" then
      let r := srv link.url
      if check_status r.status_code then
        match recur r.body with
        | .error e => .error e
        | .ok res => collectLinks srv recur rest res
      else
        match raise_for_status r.status_code with
        | .error e => .error e
        | .ok _ => collectLinks srv recur rest result
    else
      collectLinks srv recur rest result

/-- Embeds `FHIRClient._collect`: reads `result_json['link']` (raising
`KeyError` when the key is absent), runs the link loop starting from an
empty accumulator, and finally — when the `entry` key is present —
appends the current page's filtered, constructed entries.  The fuel
argument bounds the recursion depth of the unbounded Python recursion;
`outOfFuel` reports that the bound was hit. -/
def collect (srv : String → Response) (name : String) :
    Nat → Bundle → Except Err (List FHIRObj)
  | 0, _ => .error .outOfFuel
  | fuel + 1, result_json =>
    match result_json.link with
    | none => .error (.keyError "link")
    | some links =>
      match collectLinks srv (collect srv name fuel) links [] with
      | .error e => .error e
      | .ok result =>
        match result_json.entry with
        | none => .ok result
        | some entries =>
          match buildEntries name entries with
          | .error e => .error e
          | .ok objs => .ok (result ++ objs)

/-- Embeds `FHIRClient.get_all_patients`: GETs the `Patient` search URL,
and on a 200 status collects all pages with the `Patient` constructor;
otherwise calls `raise_for_status`, which either raises (4xx/5xx) or —
for any other non-200 status — falls through so that the Python method
implicitly returns `None`, modelled as `.ok none`. -/
def get_all_patients (srv : String → Response) (server_url : String) (fuel : Nat) :
    Except Err (Option (List FHIRObj)) :=
  let r := srv (build_url server_url "Patient" [])
  if check_status r.status_code then
    (collect srv "Patient" fuel r.body).map some
  else
    match raise_for_status r.status_code with
    | .error e => .error e
    | .ok _ => .ok none

/-- The Bundle's pagination links with relation `next` (empty when the
`link` key is absent — only used to STATE properties; `collect` itself
raises on an absent key). -/
def nextLinks (b : Bundle) : List Link :=
  (b.link.getD []).filter (fun l => l.relation == "next")

/-- The current page's entries that pass `_collect`'s resource-type
filter. -/
def pageFiltered (name : String) (b : Bundle) : List Entry :=
  (b.entry.getD []).filter (fun d => d.resource.resourceType == name)

/-- The typed objects built from the current page's filtered entries. -/
def pageObjs (name : String) (b : Bundle) : List FHIRObj :=
  (pageFiltered name b).map (fun d => ⟨d.resource⟩)

/-- The objects `collect` produces from a chain of pages, first page
first in the list: deeper pages' objects come first, then the head
page's own. -/
def chainObjs (name : String) : List Bundle → List FHIRObj
  | [] => []
  | b :: rest => chainObjs name rest ++ pageObjs name b

/-- A valid paginated chain of Bundles under server `srv`: the first
element is the first page; every page but the last carries exactly one
`next` link, which the server answers with status 200 and the next
page's body; the last page has a `link` array with no `next` link. -/
def validChain (srv : String → Response) : List Bundle → Bool
  | [] => false
  | [b] => b.link.isSome && decide (nextLinks b = [])
  | b :: next :: rest =>
    match nextLinks b with
    | [l] =>
      check_status (srv l.url).status_code && decide ((srv l.url).body = next) &&
        validChain srv (next :: rest)
    | _ => false

/-- Decidable equality for `Except` values, so that concrete runs of the
pipeline can be checked by evaluation. -/
instance {ε α : Type} [DecidableEq ε] [DecidableEq α] : DecidableEq (Except ε α) := fun x y =>
  match x, y with
  | .error a, .error b => if h : a = b then .isTrue (by rw [h]) else .isFalse (by simp [h])
  | .ok a, .ok b => if h : a = b then .isTrue (by rw [h]) else .isFalse (by simp [h])
  | .error _, .ok _ => .isFalse (by simp)
  | .ok _, .error _ => .isFalse (by simp)

/-- A filter that comes out empty rejects every element of the list. -/
theorem filter_eq_nil_all {α : Type} (p : α → Bool) :
    ∀ l : List α, l.filter p = [] → ∀ x ∈ l, p x = false := by
  intro l
  induction l with
  | nil => intro _ x hx; exact absurd hx (List.not_mem_nil x)
  | cons a t ih =>
    intro h x hx
    cases ha : p a with
    | true => rw [List.filter_cons, ha] at h; simp at h
    | false =>
      rw [List.filter_cons, ha] at h
      simp only [Bool.false_eq_true, if_false] at h
      rcases List.mem_cons.mp hx with rfl | hx2
      · exact ha
      · exact ih h x hx2

/-- The link loop leaves the accumulator untouched when no link has
relation `next`. -/
theorem collectLinks_no_next (srv : String → Response)
    (recur : Bundle → Except Err (List FHIRObj)) :
    ∀ ls acc, (∀ l ∈ ls, (l.relation == "next") = false) →
      collectLinks srv recur ls acc = .ok acc := by
  intro ls
  induction ls with
  | nil => intro acc _; rfl
  | cons l rest ih =>
    intro acc h
    have hl := h l (List.mem_cons_self l rest)
    simp only [collectLinks, hl, Bool.false_eq_true, if_false]
    exact ih acc (fun x hx => h x (List.mem_cons_of_mem l hx))

/-- When exactly one link of the list has relation `next` and the server
answers its URL with status 200, the link loop's outcome is exactly the
outcome of the recursive collection on the fetched body — the incoming
accumulator is discarded. -/
theorem collectLinks_single_next (srv : String → Response)
    (recur : Bundle → Except Err (List FHIRObj)) :
    ∀ ls l acc, ls.filter (fun x => x.relation == "next") = [l] →
      check_status (srv l.url).status_code = true →
      collectLinks srv recur ls acc = recur (srv l.url).body := by
  intro ls
  induction ls with
  | nil => intro l acc h _; simp at h
  | cons x rest ih =>
    intro l acc h hst
    cases hx : x.relation == "next" with
    | false =>
      rw [List.filter_cons, hx] at h
      simp only [Bool.false_eq_true, if_false] at h
      simp only [collectLinks, hx, Bool.false_eq_true, if_false]
      exact ih l acc h hst
    | true =>
      rw [List.filter_cons, hx] at h
      simp only [if_true, List.cons.injEq] at h
      obtain ⟨rfl, hrest⟩ := h
      simp only [collectLinks, hx, if_true, hst]
      cases hr : recur (srv x.url).body with
      | error e => rfl
      | ok res => exact collectLinks_no_next srv recur rest res (filter_eq_nil_all _ rest hrest)

/-- A constructor applied to entries that all carry the declared
resource-type tag never raises and wraps each entry in order. -/
theorem constructAll_matching (name : String) :
    ∀ ds : List Entry, (∀ d ∈ ds, d.resource.resourceType = name) →
      constructAll name ds = .ok (ds.map (fun d => ⟨d.resource⟩)) := by
  intro ds
  induction ds with
  | nil => intro _; rfl
  | cons d rest ih =>
    intro h
    have hd := h d (List.mem_cons_self d rest)
    rw [constructAll]
    simp only [fhirConstructor, hd, ne_eq, not_true_eq_false, if_false,
      ih (fun x hx => h x (List.mem_cons_of_mem d hx))]
    rfl

/-- The filtered comprehension of `_collect` never raises: every entry
surviving the filter carries the declared tag. -/
theorem buildEntries_eq (name : String) (entries : List Entry) :
    buildEntries name entries =
      .ok ((entries.filter (fun d => d.resource.resourceType == name)).map
        (fun d => (⟨d.resource⟩ : FHIRObj))) := by
  apply constructAll_matching
  intro d hd
  exact eq_of_beq (List.mem_filter.mp hd).2

/-- Unfolds one level of `collect` once the link loop has succeeded: the
current page's filtered entries are appended after the loop's result. -/
theorem collect_succ (srv : String → Response) (name : String) (fuel : Nat) (b : Bundle)
    (links : List Link) (res : List FHIRObj)
    (hl : b.link = some links)
    (hres : collectLinks srv (collect srv name fuel) links [] = .ok res) :
    collect srv name (fuel + 1) b = .ok (res ++ pageObjs name b) := by
  rw [collect, hl]
  simp only [hres]
  cases he : b.entry with
  | none => simp [pageObjs, pageFiltered, he]
  | some entries => simp [buildEntries_eq, pageObjs, pageFiltered, he]

/-- A Bundle with a single `next` link has its `link` key present, and
that link is the single survivor of the `next` filter. -/
theorem nextLinks_single_link {b : Bundle} {l : Link} (h : nextLinks b = [l]) :
    ∃ ls, b.link = some ls ∧ ls.filter (fun x => x.relation == "next") = [l] := by
  cases hb : b.link with
  | none => rw [nextLinks, hb] at h; simp at h
  | some ls => exact ⟨ls, rfl, by rw [nextLinks, hb] at h; exact h⟩

/-- Main pagination lemma: on a valid chain with fuel at least the
number of pages, `collect` on the first page returns exactly the
chain's objects, deepest page first. -/
theorem collect_chain (srv : String → Response) (name : String) :
    ∀ rest b0 fuel, validChain srv (b0 :: rest) = true →
      (b0 :: rest).length ≤ fuel →
      collect srv name fuel b0 = .ok (chainObjs name (b0 :: rest)) := by
  intro rest
  induction rest with
  | nil =>
    intro b0 fuel hv hf
    cases fuel with
    | zero => exact absurd hf (by simp)
    | succ f =>
      simp only [validChain, Bool.and_eq_true, decide_eq_true_eq] at hv
      obtain ⟨hsome, hnl⟩ := hv
      obtain ⟨links, hls⟩ := Option.isSome_iff_exists.mp hsome
      have hnone : ∀ l ∈ links, (l.relation == "next") = false := by
        apply filter_eq_nil_all
        rw [nextLinks, hls] at hnl
        exact hnl
      have hloop := collectLinks_no_next srv (collect srv name f) links [] hnone
      have := collect_succ srv name f b0 links [] hls hloop
      simpa [chainObjs] using this
  | cons b1 rest2 ih =>
    intro b0 fuel hv hf
    cases fuel with
    | zero => exact absurd hf (by simp)
    | succ f =>
      cases hnl : nextLinks b0 with
      | nil => simp [validChain, hnl] at hv
      | cons l tl =>
        cases tl with
        | cons l2 tl2 => simp [validChain, hnl] at hv
        | nil =>
          simp only [validChain, hnl, Bool.and_eq_true, decide_eq_true_eq] at hv
          obtain ⟨⟨hst, hbody⟩, hrest⟩ := hv
          obtain ⟨ls, hls, hfilter⟩ := nextLinks_single_link hnl
          have hfuel2 : (b1 :: rest2).length ≤ f := by
            simp only [List.length_cons] at hf ⊢
            omega
          have ihc := ih b1 f hrest hfuel2
          have hloop := collectLinks_single_next srv (collect srv name f) ls l [] hfilter hst
          rw [hbody, ihc] at hloop
          have := collect_succ srv name f b0 ls (chainObjs name (b1 :: rest2)) hls hloop
          simpa [chainObjs] using this

/-- The link loop only returns objects from the incoming accumulator or
from a successful recursive collection. -/
theorem collectLinks_preserve (srv : String → Response)
    (recur : Bundle → Except Err (List FHIRObj))
    (P : FHIRObj → Prop)
    (hr : ∀ b r, recur b = .ok r → ∀ o ∈ r, P o) :
    ∀ ls acc res, (∀ o ∈ acc, P o) →
      collectLinks srv recur ls acc = .ok res → ∀ o ∈ res, P o := by
  intro ls
  induction ls with
  | nil =>
    intro acc res hacc h o ho
    injection h with h
    subst h
    exact hacc o ho
  | cons l rest ih =>
    intro acc res hacc h o ho
    cases hl : l.relation == "next" with
    | false =>
      simp only [collectLinks, hl, Bool.false_eq_true, if_false] at h
      exact ih acc res hacc h o ho
    | true =>
      simp only [collectLinks, hl, if_true] at h
      cases hst : check_status (srv l.url).status_code with
      | true =>
        simp only [hst, if_true] at h
        cases hrec : recur (srv l.url).body with
        | error e =>
          rw [hrec] at h
          exact absurd h (by simp)
        | ok r =>
          simp only [hrec] at h
          exact ih r res (hr _ r hrec) h o ho
      | false =>
        simp only [hst, Bool.false_eq_true, if_false] at h
        cases hraise : raise_for_status (srv l.url).status_code with
        | error e =>
          rw [hraise] at h
          exact absurd h (by simp)
        | ok u =>
          simp only [hraise] at h
          exact ih acc res hacc h o ho

/-- Every object `collect` ever returns carries the declared
resource-type name: the filter and the constructor agree. -/
theorem collect_tags (srv : String → Response) (name : String) :
    ∀ fuel b res, collect srv name fuel b = .ok res →
      ∀ o ∈ res, o.resource.resourceType = name := by
  intro fuel
  induction fuel with
  | zero => intro b res h; simp [collect] at h
  | succ f ih =>
    intro b res h o ho
    rw [collect] at h
    cases hls : b.link with
    | none =>
      simp only [hls] at h
      exact absurd h (by simp)
    | some links =>
      simp only [hls] at h
      cases hcl : collectLinks srv (collect srv name f) links [] with
      | error e =>
        simp only [hcl] at h
        exact absurd h (by simp)
      | ok mid =>
        simp only [hcl] at h
        have hmid : ∀ o ∈ mid, o.resource.resourceType = name :=
          collectLinks_preserve srv _ _ (fun b2 r hr2 => ih b2 r hr2) links [] mid
            (by intro o2 ho2; exact absurd ho2 (List.not_mem_nil o2)) hcl
        cases he : b.entry with
        | none =>
          simp only [he] at h
          injection h with h
          subst h
          exact hmid o ho
        | some entries =>
          simp only [he, buildEntries_eq] at h
          injection h with h
          subst h
          rcases List.mem_append.mp ho with hm | hm
          · exact hmid o hm
          · rcases List.mem_map.mp hm with ⟨d, hd, rfl⟩
            exact eq_of_beq (List.mem_filter.mp hd).2

/-- A `next` chain that never leaves a set of pages on which every
fetch succeeds and yields a further `next` link — e.g. any cyclic
chain — exhausts every amount of fuel: the model never reaches a
result, mirroring the non-terminating Python recursion. -/
theorem collect_unbounded (srv : String → Response) (name : String)
    (P : Bundle → Prop)
    (hstep : ∀ b, P b → ∃ ls l, b.link = some ls ∧
      ls.filter (fun x => x.relation == "next") = [l] ∧
      check_status (srv l.url).status_code = true ∧ P (srv l.url).body) :
    ∀ fuel b, P b → collect srv name fuel b = .error .outOfFuel := by
  intro fuel
  induction fuel with
  | zero => intro b _; rfl
  | succ f ih =>
    intro b hb
    obtain ⟨ls, l, hls, hfilter, hst, hnext⟩ := hstep b hb
    rw [collect, hls]
    have hloop := collectLinks_single_next srv (collect srv name f) ls l [] hfilter hst
    rw [ih (srv l.url).body hnext] at hloop
    simp only [hloop]

/-- Membership in the chain's objects is membership in some page's
objects. -/
theorem chainObjs_mem (name : String) :
    ∀ pages : List Bundle, ∀ o,
      o ∈ chainObjs name pages ↔ ∃ b, b ∈ pages ∧ o ∈ pageObjs name b := by
  intro pages
  induction pages with
  | nil => intro o; simp [chainObjs]
  | cons b rest ih =>
    intro o
    simp only [chainObjs, List.mem_append, ih o, List.mem_cons]
    constructor
    · rintro (⟨b2, hb2, ho2⟩ | ho)
      · exact ⟨b2, Or.inr hb2, ho2⟩
      · exact ⟨b, Or.inl rfl, ho⟩
    · rintro ⟨b2, hb2 | hb2, ho2⟩
      · subst hb2; exact Or.inr ho2
      · exact Or.inl ⟨b2, hb2, ho2⟩

/-- Each object occurs in the chain's objects exactly as often as it
occurs across the pages: collection neither drops nor duplicates. -/
theorem chainObjs_count (name : String) :
    ∀ pages : List Bundle, ∀ o,
      (chainObjs name pages).count o =
        (pages.map (fun b => (pageObjs name b).count o)).sum := by
  intro pages
  induction pages with
  | nil => intro o; simp [chainObjs]
  | cons b rest ih =>
    intro o
    simp only [chainObjs, List.count_append, ih o, List.map_cons, List.sum_cons]
    omega

/-- The query-string fragment `_build_url` appends: one `name=value&`
per truthy-valued parameter, in order, and nothing at all for a
falsy-valued parameter. -/
def queryString : List (String × String) → String
  | [] => ""
  | p :: ps => (if p.2 != "" then p.1 ++ "=" ++ p.2 ++ "&" else "") ++ queryString ps

/-- The parameter fold of `_build_url` appends exactly the query
string. -/
theorem build_url_foldl (ps : List (String × String)) :
    ∀ u, ps.foldl (fun u p => if p.2 != "" then u ++ p.1 ++ "=" ++ p.2 ++ "&" else u) u
      = u ++ queryString ps := by
  induction ps with
  | nil => intro u; simp [queryString, String.append_empty]
  | cons p ps2 ih =>
    intro u
    cases hp : p.2 != "" with
    | true =>
      simp only [List.foldl_cons, hp, if_true, ih, queryString]
      simp [String.append_assoc]
    | false =>
      simp only [List.foldl_cons, hp, Bool.false_eq_true, if_false, ih, queryString]
      simp [String.empty_append]

/-- Closed form of `_build_url`: the joined base, a `?` exactly when
any parameter was supplied, then the truthy-valued parameters only. -/
theorem build_url_eq (server_url path : String) (ps : List (String × String)) :
    build_url server_url path ps =
      osPathJoin server_url path ++ (if ps.isEmpty then "" else "?") ++ queryString ps := by
  cases ps with
  | nil => simp [build_url, queryString, String.append_empty]
  | cons p ps2 =>
    simp only [build_url, List.isEmpty_cons, Bool.false_eq_true, if_false]
    rw [build_url_foldl]

/-- A parameter list whose truthy filter is empty contributes an empty
query string. -/
theorem queryString_filter_nil :
    ∀ ps : List (String × String), ps.filter (fun p => p.2 != "") = [] →
      queryString ps = "" := by
  intro ps
  induction ps with
  | nil => intro _; rfl
  | cons p ps2 ih =>
    intro h
    rw [List.filter_cons] at h
    cases hp : p.2 != "" with
    | true => rw [hp] at h; simp at h
    | false =>
      rw [hp] at h
      simp only [Bool.false_eq_true, if_false] at h
      simp [queryString, hp, ih h, String.empty_append]

/-- A parameter list with at least one truthy value yields a query
string ending in the `&` separator. -/
theorem queryString_ends_amp :
    ∀ ps : List (String × String), ps.filter (fun p => p.2 != "") ≠ [] →
      ∃ pre, queryString ps = pre ++ "&" := by
  intro ps
  induction ps with
  | nil => intro h; simp at h
  | cons p ps2 ih =>
    intro h
    cases hp : p.2 != "" with
    | false =>
      rw [List.filter_cons, hp] at h
      simp only [Bool.false_eq_true, if_false] at h
      obtain ⟨pre, hpre⟩ := ih h
      exact ⟨pre, by simp [queryString, hp, hpre, String.empty_append]⟩
    | true =>
      by_cases h2 : ps2.filter (fun p => p.2 != "") = []
      · refine ⟨p.1 ++ "=" ++ p.2, ?_⟩
        simp [queryString, hp, queryString_filter_nil ps2 h2, String.append_empty]
      · obtain ⟨pre, hpre⟩ := ih h2
        refine ⟨p.1 ++ "=" ++ p.2 ++ "&" ++ pre, ?_⟩
        simp [queryString, hp, hpre, String.append_assoc]

/-- When every element fails the filter predicate, the filter is
empty. -/
theorem filter_eq_nil_of_all {α : Type} (p : α → Bool) :
    ∀ l : List α, (∀ x ∈ l, p x = false) → l.filter p = [] := by
  intro l
  induction l with
  | nil => intro _; rfl
  | cons a t ih =>
    intro h
    rw [List.filter_cons, h a (List.mem_cons_self a t)]
    simp only [Bool.false_eq_true, if_false]
    exact ih (fun x hx => h x (List.mem_cons_of_mem a hx))

/-- Concrete resources for checking the theorems on explicit runs. -/
def patientRes : Resource := ⟨"Patient", [("id", "p1")]⟩

def patientRes2 : Resource := ⟨"Patient", [("id", "p2")]⟩

def obsRes : Resource := ⟨"Observation", [("id", "o1")]⟩

def paRes : Resource := ⟨"Patient", [("id", "pa")]⟩

def pbRes : Resource := ⟨"Patient", [("id", "pb")]⟩

/-- A terminal Bundle with no entries. -/
def emptyBundle : Bundle := ⟨some [], none⟩

/-- The second (terminal) page of the two-page scenario. -/
def page2 : Bundle := ⟨some [⟨"self", "page2url"⟩], some [⟨patientRes2⟩]⟩

/-- The first page: one `next` link, one Patient entry and one
Observation entry. -/
def page1 : Bundle := ⟨some [⟨"next", "page2url"⟩], some [⟨patientRes⟩, ⟨obsRes⟩]⟩

/-- A server for the two-page scenario: answers the `next` URL with
page 2 and anything else with 404. -/
def srv1 : String → Response := fun url =>
  if url = "page2url" then ⟨200, page2⟩ else ⟨404, emptyBundle⟩

/-- An end-to-end server: answers the built Patient search URL with
page 1, the `next` URL with page 2, and anything else with 404. -/
def srvE2E : String → Response := fun url =>
  if url = "http://fhir/Patient" then ⟨200, page1⟩
  else if url = "page2url" then ⟨200, page2⟩
  else ⟨404, emptyBundle⟩

/-- A server answering every request with a 204 (non-200, non-error)
status. -/
def srv204 : String → Response := fun _ => ⟨204, emptyBundle⟩

/-- A Bundle whose single `next` link points back at itself through
`srvLoop`. -/
def loopBundle : Bundle := ⟨some [⟨"next", "loopurl"⟩], some []⟩

/-- A server answering every request with the self-looping Bundle. -/
def srvLoop : String → Response := fun _ => ⟨200, loopBundle⟩

/-- Terminal page behind the first of two `next` links. -/
def pageA : Bundle := ⟨some [], some [⟨paRes⟩]⟩

/-- Terminal page behind the second of two `next` links. -/
def pageB : Bundle := ⟨some [], some [⟨pbRes⟩]⟩

/-- A Bundle carrying TWO `next` links plus an entry of its own. -/
def twoNextBundle : Bundle := ⟨some [⟨"next", "aurl"⟩, ⟨"next", "burl"⟩], some [⟨patientRes⟩]⟩

/-- The server for the two-`next`-links scenario. -/
def srv9 : String → Response := fun url =>
  if url = "aurl" then ⟨200, pageA⟩
  else if url = "burl" then ⟨200, pageB⟩
  else ⟨404, emptyBundle⟩

/-- A Bundle without the `link` key. -/
def noLinkBundle : Bundle := ⟨none, some [⟨patientRes⟩]⟩

/-- C1: for every valid multi-page Bundle (each page reachable via
`next` links, the chain finite, each page carrying at most one `next`
link), `_collect` on the first page's JSON succeeds, the returned
sequence's members are exactly the union over reachable pages of that
page's type-filtered entries, each entry keeps its exact multiplicity
(no duplicates introduced, no omissions), and with zero `next` links
the result is the first page's own filtered entries. -/
theorem collect_union_of_pages (srv : String → Response) (name : String)
    (b0 : Bundle) (rest : List Bundle) (fuel : Nat)
    (hv : validChain srv (b0 :: rest) = true)
    (hf : (b0 :: rest).length ≤ fuel) :
    ∃ objs, collect srv name fuel b0 = .ok objs ∧
      (∀ o, o ∈ objs ↔ ∃ b, b ∈ b0 :: rest ∧ o ∈ pageObjs name b) ∧
      (∀ o, objs.count o = ((b0 :: rest).map (fun b => (pageObjs name b).count o)).sum) ∧
      (rest = [] → objs = pageObjs name b0) := by
  refine ⟨chainObjs name (b0 :: rest), collect_chain srv name rest b0 fuel hv hf,
    chainObjs_mem name (b0 :: rest), chainObjs_count name (b0 :: rest), ?_⟩
  rintro rfl
  simp [chainObjs]

/-- Witness for C1: the two-page scenario with fuel 2. -/
theorem collect_union_of_pages_witness :
    validChain srv1 [page1, page2] = true ∧ ([page1, page2] : List Bundle).length ≤ 2 ∧
      (∃ objs, collect srv1 "Patient" 2 page1 = .ok objs ∧
        (∀ o, o ∈ objs ↔ ∃ b, b ∈ [page1, page2] ∧ o ∈ pageObjs "Patient" b) ∧
        (∀ o, objs.count o =
          (([page1, page2] : List Bundle).map
            (fun b => (pageObjs "Patient" b).count o)).sum) ∧
        (([page2] : List Bundle) = [] → objs = pageObjs "Patient" page1)) :=
  ⟨by decide, by decide,
    collect_union_of_pages srv1 "Patient" page1 [page2] 2 (by decide) (by decide)⟩

/-- C6: on a paginated chain, `_collect` returns the concatenation of
the entries collected from the deeper (`next`) pages first — deepest
page first — followed by the current page's own filtered entries, each
page's entries in the order they appear on that page. -/
theorem collect_page_order (srv : String → Response) (name : String)
    (b0 : Bundle) (rest : List Bundle) (fuel : Nat)
    (hv : validChain srv (b0 :: rest) = true)
    (hf : (b0 :: rest).length ≤ fuel) :
    collect srv name fuel b0 = .ok (chainObjs name rest ++ pageObjs name b0) :=
  collect_chain srv name rest b0 fuel hv hf

/-- Witness for C6: the two-page scenario; deeper page's entries come
first. -/
theorem collect_page_order_witness :
    validChain srv1 [page1, page2] = true ∧ ([page1, page2] : List Bundle).length ≤ 2 ∧
      collect srv1 "Patient" 2 page1 =
        .ok (chainObjs "Patient" [page2] ++ pageObjs "Patient" page1) :=
  ⟨by decide, by decide, collect_page_order srv1 "Patient" page1 [page2] 2 (by decide) (by decide)⟩

/-- C8: when the `next` chain the server returns is finite, `_collect`
terminates — any two sufficient fuel bounds agree and yield a
successful result — and there is no artificial depth bound: on a cyclic
`next` chain (a page whose single `next` link fetches that same page
with status 200) no amount of fuel ever yields a result, i.e. the
recursion does not terminate. -/
theorem collect_termination :
    (∀ (srv : String → Response) (name : String) (b0 : Bundle) (rest : List Bundle) (f1 f2 : Nat),
      validChain srv (b0 :: rest) = true →
      (b0 :: rest).length ≤ f1 → (b0 :: rest).length ≤ f2 →
      collect srv name f1 b0 = collect srv name f2 b0 ∧
        ∃ objs, collect srv name f1 b0 = .ok objs) ∧
    (∀ (srv : String → Response) (name : String) (P : Bundle → Prop),
      (∀ b, P b → ∃ ls l, b.link = some ls ∧
        ls.filter (fun x => x.relation == "next") = [l] ∧
        check_status (srv l.url).status_code = true ∧ P (srv l.url).body) →
      ∀ fuel b, P b → collect srv name fuel b = .error .outOfFuel) := by
  constructor
  · intro srv name b0 rest f1 f2 hv h1 h2
    rw [collect_chain srv name rest b0 f1 hv h1, collect_chain srv name rest b0 f2 hv h2]
    exact ⟨rfl, chainObjs name (b0 :: rest), rfl⟩
  · intro srv name P hstep
    exact collect_unbounded srv name P hstep

/-- Witness for C8: the finite two-page chain stabilizes at fuels 2 and
5; the self-looping server exhausts fuel 3. -/
theorem collect_termination_witness :
    (validChain srv1 [page1, page2] = true ∧
      (collect srv1 "Patient" 2 page1 = collect srv1 "Patient" 5 page1 ∧
        ∃ objs, collect srv1 "Patient" 2 page1 = .ok objs)) ∧
    (loopBundle.link = some [⟨"next", "loopurl"⟩] ∧
      collect srvLoop "Patient" 3 loopBundle = .error .outOfFuel) := by
  constructor
  · exact ⟨by decide,
      collect_termination.1 srv1 "Patient" page1 [page2] 2 5 (by decide) (by decide) (by decide)⟩
  · refine ⟨rfl, collect_termination.2 srvLoop "Patient" (fun b => b = loopBundle) ?_ 3
      loopBundle rfl⟩
    intro b hb
    subst hb
    exact ⟨[⟨"next", "loopurl"⟩], ⟨"next", "loopurl"⟩, rfl, by decide, by decide, rfl⟩

/-- C2 counterexample: a pagination fetch inside `_collect` answered
with status 204 — "any other status code" per the claim — does NOT
raise: `raise_for_status` is a no-op below 400, so `_collect` silently
skips the page behind the 204 response and still returns the current
page's own entries. -/
theorem status_classification_counterexample :
    check_status 204 = false ∧
      collect srv204 "Patient" 2 page1 = .ok [⟨patientRes⟩] := by
  exact ⟨by decide, by decide⟩

/-- Reaching a `next` link with an HTTP error status raises with that
status: the loop passes over the earlier links — non-`next` links are
skipped, successful `next` fetches replace the accumulator, non-error
non-200 `next` fetches are no-ops — and aborts at the erroring link. -/
theorem collectLinks_error_at (srv : String → Response)
    (recur : Bundle → Except Err (List FHIRObj)) (l : Link) (post : List Link)
    (hrel : l.relation = "next")
    (h4 : 400 ≤ (srv l.url).status_code) (h6 : (srv l.url).status_code < 600) :
    ∀ pre, (∀ x ∈ pre, x.relation = "next" →
        (check_status (srv x.url).status_code = true ∧
          ∃ r, recur (srv x.url).body = .ok r) ∨
        (check_status (srv x.url).status_code = false ∧
          ¬(400 ≤ (srv x.url).status_code ∧ (srv x.url).status_code < 600))) →
      ∀ acc, collectLinks srv recur (pre ++ l :: post) acc =
        .error (.httpError (srv l.url).status_code) := by
  intro pre
  induction pre with
  | nil =>
    intro _ acc
    have hrelb : (l.relation == "next") = true := by simp [hrel]
    have hstf : check_status (srv l.url).status_code = false := by
      simp only [check_status, beq_eq_false_iff_ne, ne_eq]
      omega
    have hraise : raise_for_status (srv l.url).status_code =
        .error (.httpError (srv l.url).status_code) := by
      rw [raise_for_status, if_pos ⟨h4, h6⟩]
    simp only [List.nil_append, collectLinks, hrelb, if_true, hstf, Bool.false_eq_true,
      if_false, hraise]
  | cons x rest ih =>
    intro h acc
    cases hx : x.relation == "next" with
    | false =>
      simp only [List.cons_append, collectLinks, hx, Bool.false_eq_true, if_false]
      exact ih (fun y hy => h y (List.mem_cons_of_mem x hy)) acc
    | true =>
      have hxr : x.relation = "next" := eq_of_beq hx
      rcases h x (List.mem_cons_self x rest) hxr with ⟨hst, r, hr⟩ | ⟨hstf, hnr⟩
      · simp only [List.cons_append, collectLinks, hx, if_true, hst, hr]
        exact ih (fun y hy => h y (List.mem_cons_of_mem x hy)) r
      · have hraise : raise_for_status (srv x.url).status_code = .ok () := by
          rw [raise_for_status, if_neg hnr]
        simp only [List.cons_append, collectLinks, hx, if_true, hstf, Bool.false_eq_true,
          if_false, hraise]
        exact ih (fun y hy => h y (List.mem_cons_of_mem x hy)) acc

/-- C2 amended: a response is successful iff its status code is exactly
200; a pagination fetch inside `_collect` answered with an HTTP error
status (400–599, e.g. 404), wherever its link sits in the `link` array,
makes the whole collection raise an error carrying that status, so the
caller receives no objects and no partially collected pages, and a
facade call whose first response has an error status likewise raises; a
non-200 status outside 400–599 (e.g. 204) however does not raise:
inside `_collect` such a `next` link is silently skipped — collecting
with it is the same as collecting without it — and a facade call whose
first response has such a status implicitly returns `None`. -/
theorem status_classification_amended :
    (∀ s, check_status s = true ↔ s = 200) ∧
    (∀ (srv : String → Response) (name : String) (fuel : Nat) (b : Bundle)
        (pre : List Link) (l : Link) (post : List Link),
      b.link = some (pre ++ l :: post) → l.relation = "next" →
      400 ≤ (srv l.url).status_code → (srv l.url).status_code < 600 →
      (∀ x ∈ pre, x.relation = "next" →
        (check_status (srv x.url).status_code = true ∧
          ∃ r, collect srv name fuel (srv x.url).body = .ok r) ∨
        (check_status (srv x.url).status_code = false ∧
          ¬(400 ≤ (srv x.url).status_code ∧ (srv x.url).status_code < 600))) →
      collect srv name (fuel + 1) b = .error (.httpError (srv l.url).status_code)) ∧
    (∀ (srv : String → Response) (name : String) (fuel : Nat)
        (l : Link) (ls : List Link) (e : Option (List Entry)),
      l.relation = "next" →
      check_status (srv l.url).status_code = false →
      ¬(400 ≤ (srv l.url).status_code ∧ (srv l.url).status_code < 600) →
      collect srv name (fuel + 1) ⟨some (l :: ls), e⟩ =
        collect srv name (fuel + 1) ⟨some ls, e⟩) ∧
    (∀ (srv : String → Response) (server_url : String) (fuel : Nat),
      400 ≤ (srv (build_url server_url "Patient" [])).status_code →
      (srv (build_url server_url "Patient" [])).status_code < 600 →
      get_all_patients srv server_url fuel =
        .error (.httpError (srv (build_url server_url "Patient" [])).status_code)) ∧
    (∀ (srv : String → Response) (server_url : String) (fuel : Nat),
      check_status (srv (build_url server_url "Patient" [])).status_code = false →
      ¬(400 ≤ (srv (build_url server_url "Patient" [])).status_code ∧
        (srv (build_url server_url "Patient" [])).status_code < 600) →
      get_all_patients srv server_url fuel = .ok none) := by
  refine ⟨?_, ?_, ?_, ?_, ?_⟩
  · intro s
    simp [check_status]
  · intro srv name fuel b pre l post hlink hrel h4 h6 hpre
    have hloop := collectLinks_error_at srv (collect srv name fuel) l post hrel h4 h6 pre hpre []
    rw [collect, hlink]
    simp only [hloop]
  · intro srv name fuel l ls e hrel hstf hnr
    have hrelb : (l.relation == "next") = true := by simp [hrel]
    have hraise : raise_for_status (srv l.url).status_code = .ok () := by
      rw [raise_for_status, if_neg hnr]
    have hstep : collectLinks srv (collect srv name fuel) (l :: ls) [] =
        collectLinks srv (collect srv name fuel) ls [] := by
      simp only [collectLinks, hrelb, if_true, hstf, Bool.false_eq_true, if_false, hraise]
    simp only [collect, hstep]
  · intro srv server_url fuel h4 h6
    have hstf : check_status (srv (build_url server_url "Patient" [])).status_code = false := by
      simp only [check_status, beq_eq_false_iff_ne, ne_eq]
      omega
    have hraise : raise_for_status (srv (build_url server_url "Patient" [])).status_code =
        .error (.httpError (srv (build_url server_url "Patient" [])).status_code) := by
      rw [raise_for_status, if_pos ⟨h4, h6⟩]
    rw [get_all_patients]
    simp only [hstf, Bool.false_eq_true, if_false, hraise]
  · intro srv server_url fuel hstf hnr
    have hraise : raise_for_status (srv (build_url server_url "Patient" [])).status_code =
        .ok () := by
      rw [raise_for_status, if_neg hnr]
    rw [get_all_patients]
    simp only [hstf, Bool.false_eq_true, if_false, hraise]

/-- Witness for C2 amended: a 404 on the `next` fetch aborts the whole
collection with `HTTPError 404`; a 204 `next` fetch is skipped exactly
as if its link were absent; a facade call against an all-404 server
raises; a facade call against an all-204 server returns `None`. -/
theorem status_classification_amended_witness :
    (check_status 200 = true ↔ (200 : Nat) = 200) ∧
    collect srv1 "Patient" 1 ⟨some [⟨"next", "missing"⟩], some [⟨patientRes⟩]⟩ =
      .error (.httpError 404) ∧
    collect srv204 "Patient" 1 ⟨some [⟨"next", "x"⟩], some [⟨patientRes⟩]⟩ =
      collect srv204 "Patient" 1 ⟨some [], some [⟨patientRes⟩]⟩ ∧
    get_all_patients (fun _ => ⟨404, emptyBundle⟩) "http://fhir" 1 =
      .error (.httpError 404) ∧
    get_all_patients srv204 "http://fhir" 1 = .ok none := by
  refine ⟨status_classification_amended.1 200, ?_, ?_, ?_, ?_⟩
  · exact status_classification_amended.2.1 srv1 "Patient" 0
      ⟨some [⟨"next", "missing"⟩], some [⟨patientRes⟩]⟩ [] ⟨"next", "missing"⟩ [] rfl rfl
      (by decide) (by decide) (fun x hx => absurd hx (List.not_mem_nil x))
  · exact status_classification_amended.2.2.1 srv204 "Patient" 0 ⟨"next", "x"⟩ []
      (some [⟨patientRes⟩]) rfl (by decide) (by decide)
  · exact status_classification_amended.2.2.2.1 (fun _ => ⟨404, emptyBundle⟩) "http://fhir" 1
      (by decide) (by decide)
  · exact status_classification_amended.2.2.2.2 srv204 "http://fhir" 1
      (by decide) (by decide)

/-- C3 counterexample: on a Bundle JSON without the `link` key,
`_collect` raises `KeyError` instead of returning the page's own
filtered entries. -/
theorem missing_link_counterexample :
    collect srv1 "Patient" 1 noLinkBundle = .error (.keyError "link") := by
  decide

/-- C3 amended: a Bundle JSON missing the `link` key makes `_collect`
raise a `KeyError` — the missing key is NOT treated as "no further
pages" — while a missing `entry` key, on a page whose `link` array
carries no `next` relation, is treated as zero entries and produces the
empty result without error. -/
theorem missing_link_amended :
    (∀ (srv : String → Response) (name : String) (fuel : Nat) (b : Bundle),
      b.link = none → collect srv name (fuel + 1) b = .error (.keyError "link")) ∧
    (∀ (srv : String → Response) (name : String) (fuel : Nat) (b : Bundle)
        (ls : List Link),
      b.link = some ls → nextLinks b = [] → b.entry = none →
      collect srv name (fuel + 1) b = .ok []) := by
  constructor
  · intro srv name fuel b hnone
    rw [collect, hnone]
  · intro srv name fuel b ls hls hnl hentry
    have hnone : ∀ l ∈ ls, (l.relation == "next") = false := by
      apply filter_eq_nil_all
      rw [nextLinks, hls] at hnl
      exact hnl
    have hloop := collectLinks_no_next srv (collect srv name fuel) ls [] hnone
    rw [collect, hls]
    simp only [hloop, hentry]

/-- Witness for C3 amended: the `link`-less Bundle raises; the empty
terminal Bundle (no `entry` key) collects to the empty list. -/
theorem missing_link_amended_witness :
    (noLinkBundle.link = none ∧
      collect srv1 "Patient" 1 noLinkBundle = .error (.keyError "link")) ∧
    (emptyBundle.link = some [] ∧ nextLinks emptyBundle = [] ∧ emptyBundle.entry = none ∧
      collect srv1 "Patient" 1 emptyBundle = .ok []) := by
  constructor
  · exact ⟨rfl, missing_link_amended.1 srv1 "Patient" 0 noLinkBundle rfl⟩
  · exact ⟨rfl, rfl, rfl, missing_link_amended.2 srv1 "Patient" 0 emptyBundle [] rfl rfl rfl⟩

/-- C4: constructing a typed object (here a `Procedure`) from a raw
resource dictionary whose `resourceType` tag differs from the declared
resource type raises `ValueError` carrying the offending tag; no object
— full or partial — is ever returned, and the tag is never coerced. -/
theorem procedure_type_mismatch_fails (d : Resource)
    (h : d.resourceType ≠ "Procedure") :
    procedureInit d =
      .error (.valueError ("Can not generate a " ++ "Procedure" ++ " from " ++ d.resourceType)) ∧
    ∀ o, procedureInit d ≠ .ok o := by
  constructor
  · simp [procedureInit, fhirConstructor, h]
  · intro o hok
    simp [procedureInit, fhirConstructor, h] at hok

/-- Witness for C4: an `Observation`-tagged dictionary can not build a
`Procedure`. -/
theorem procedure_type_mismatch_fails_witness :
    obsRes.resourceType ≠ "Procedure" ∧
      (procedureInit obsRes =
        .error (.valueError
          ("Can not generate a " ++ "Procedure" ++ " from " ++ obsRes.resourceType)) ∧
      ∀ o, procedureInit obsRes ≠ .ok o) :=
  ⟨by decide, procedure_type_mismatch_fails obsRes (by decide)⟩

/-- Inverts a successful facade call: the 200 branch was taken and the
collection itself succeeded on the first response's body. -/
theorem get_all_patients_ok (srv : String → Response) (server_url : String)
    (fuel : Nat) (objs : List FHIRObj)
    (h : get_all_patients srv server_url fuel = .ok (some objs)) :
    collect srv "Patient" fuel (srv (build_url server_url "Patient" [])).body = .ok objs := by
  simp only [get_all_patients] at h
  cases hst : check_status (srv (build_url server_url "Patient" [])).status_code with
  | true =>
    simp only [hst, if_true] at h
    cases hcol : collect srv "Patient" fuel (srv (build_url server_url "Patient" [])).body with
    | error e =>
      rw [hcol] at h
      exact absurd h (by simp [Except.map])
    | ok r =>
      rw [hcol] at h
      simp only [Except.map] at h
      injection h with h
      injection h with h
      rw [h]
  | false =>
    simp only [hst, Bool.false_eq_true, if_false] at h
    cases hraise : raise_for_status (srv (build_url server_url "Patient" [])).status_code with
    | error e =>
      rw [hraise] at h
      exact absurd h (by simp)
    | ok u =>
      rw [hraise] at h
      exact absurd h (by simp)

/-- C5: every object a successful `get_all_patients` call returns
carries the resource-type tag `Patient`; in particular an
`Observation`-tagged object is never part of the result, even when an
`Observation` entry sits in one of the fetched Bundles. -/
theorem get_all_patients_type_filter (srv : String → Response) (server_url : String)
    (fuel : Nat) (objs : List FHIRObj)
    (h : get_all_patients srv server_url fuel = .ok (some objs)) :
    (∀ o ∈ objs, o.resource.resourceType = "Patient") ∧
    (∀ o : FHIRObj, o.resource.resourceType = "Observation" → o ∉ objs) := by
  have hc := get_all_patients_ok srv server_url fuel objs h
  have htags := collect_tags srv "Patient" fuel _ objs hc
  refine ⟨htags, ?_⟩
  intro o htag hin
  have hpat := htags o hin
  rw [hpat] at htag
  exact absurd htag (by decide)

/-- Witness for C5: the end-to-end two-page fetch returns exactly the
two Patient objects and excludes page 1's Observation entry. -/
theorem get_all_patients_type_filter_witness :
    get_all_patients srvE2E "http://fhir" 2 = .ok (some [⟨patientRes2⟩, ⟨patientRes⟩]) ∧
      ((∀ o ∈ [(⟨patientRes2⟩ : FHIRObj), ⟨patientRes⟩], o.resource.resourceType = "Patient") ∧
       (∀ o : FHIRObj, o.resource.resourceType = "Observation" →
          o ∉ [(⟨patientRes2⟩ : FHIRObj), ⟨patientRes⟩])) :=
  ⟨by decide, get_all_patients_type_filter srvE2E "http://fhir" 2 _ (by decide)⟩

/-- C7: `_build_url` always returns the closed-form string "joined base,
then `?` exactly when parameters were supplied, then the truthy-valued
parameters only" — so falsy-valued parameters are omitted entirely;
with no parameters the result is the bare joined URL with no trailing
`?`; with `_count=5` the URL contains `?_count=5`; and with at least
one truthy-valued parameter the URL ends in a trailing `&`. -/
theorem build_url_spec :
    (∀ server_url path ps, build_url server_url path ps =
      osPathJoin server_url path ++ (if ps.isEmpty then "" else "?") ++ queryString ps) ∧
    (∀ server_url, build_url server_url "Patient" [] = osPathJoin server_url "Patient") ∧
    (∀ server_url, ∃ pre suf,
      build_url server_url "Patient" [("_count", "5")] = pre ++ ("?_count=5" ++ suf)) ∧
    (∀ server_url path ps, ps.filter (fun p => p.2 != "") ≠ [] →
      ∃ pre, build_url server_url path ps = pre ++ "&") := by
  refine ⟨build_url_eq, ?_, ?_, ?_⟩
  · intro s
    rw [build_url_eq]
    simp [queryString, String.append_empty]
  · intro s
    refine ⟨osPathJoin s "Patient", "&", ?_⟩
    rw [build_url_eq]
    have hq : queryString [("_count", "5")] = "_count=5&" := by decide
    rw [hq]
    simp only [List.isEmpty_cons, Bool.false_eq_true, if_false]
    rw [String.append_assoc]
    congr 1
  · intro s path ps hne
    obtain ⟨pre, hpre⟩ := queryString_ends_amp ps hne
    have hps : ps.isEmpty = false := by
      cases ps with
      | nil => exact absurd rfl hne
      | cons a t => rfl
    refine ⟨osPathJoin s path ++ "?" ++ pre, ?_⟩
    rw [build_url_eq, hps, hpre]
    simp [String.append_assoc]

/-- Witness for C7: the truthy `_count=5` parameter list is non-empty
after filtering and the built URL ends in `&`. -/
theorem build_url_spec_witness :
    ([("_count", "5")] : List (String × String)).filter (fun p => p.2 != "") ≠ [] ∧
      ∃ pre, build_url "http://fhir" "Patient" [("_count", "5")] = pre ++ "&" :=
  ⟨by decide, build_url_spec.2.2.2 "http://fhir" "Patient" [("_count", "5")] (by decide)⟩

/-- The link loop over a list of all-`next`, all-successful links ends
with the LAST link's recursive result: every earlier result is
computed, then overwritten. -/
theorem collectLinks_last (srv : String → Response)
    (recur : Bundle → Except Err (List FHIRObj)) (llast : Link) (res : List FHIRObj)
    (hlast_rel : llast.relation = "next")
    (hstl : check_status (srv llast.url).status_code = true)
    (hres : recur (srv llast.url).body = .ok res) :
    ∀ ls, (∀ l ∈ ls, l.relation = "next" ∧ check_status (srv l.url).status_code = true ∧
        ∃ r, recur (srv l.url).body = .ok r) →
      ∀ acc, collectLinks srv recur (ls ++ [llast]) acc = .ok res := by
  intro ls
  induction ls with
  | nil =>
    intro _ acc
    have hrelb : (llast.relation == "next") = true := by simp [hlast_rel]
    simp only [List.nil_append, collectLinks, hrelb, if_true, hstl, hres]
  | cons x rest ih =>
    intro h acc
    obtain ⟨hxr, hxs, r, hr⟩ := h x (List.mem_cons_self x rest)
    have hrelb : (x.relation == "next") = true := by simp [hxr]
    simp only [List.cons_append, collectLinks, hrelb, if_true, hxs, hr]
    exact ih (fun y hy => h y (List.mem_cons_of_mem x hy)) r

/-- C9: when a Bundle's `link` array carries two or more `next` links
and each fetch and recursive collection succeeds, each successful
recursive call REPLACES the accumulator, so the final result is only
the entries reached through the last `next` link followed by the
current page's own filtered entries — everything collected through the
earlier `next` links is discarded. -/
theorem collect_last_next_wins (srv : String → Response) (name : String)
    (fuel : Nat) (b : Bundle) (ls : List Link) (llast : Link) (res : List FHIRObj)
    (hlink : b.link = some (ls ++ [llast]))
    (hearlier : ∀ l ∈ ls, l.relation = "next" ∧
      check_status (srv l.url).status_code = true ∧
      ∃ r, collect srv name fuel (srv l.url).body = .ok r)
    (hlast_rel : llast.relation = "next")
    (hstl : check_status (srv llast.url).status_code = true)
    (hres : collect srv name fuel (srv llast.url).body = .ok res) :
    collect srv name (fuel + 1) b = .ok (res ++ pageObjs name b) :=
  collect_succ srv name fuel b _ res hlink
    (collectLinks_last srv (collect srv name fuel) llast res hlast_rel hstl hres ls hearlier [])

/-- Witness for C9: with two `next` links, only the second link's page
(`pageB`) survives, followed by the current page's own Patient entry —
`pageA`'s entry is discarded. -/
theorem collect_last_next_wins_witness :
    twoNextBundle.link = some ([⟨"next", "aurl"⟩] ++ [⟨"next", "burl"⟩]) ∧
      collect srv9 "Patient" 2 twoNextBundle =
        .ok ([⟨pbRes⟩] ++ pageObjs "Patient" twoNextBundle) := by
  refine ⟨rfl, collect_last_next_wins srv9 "Patient" 1 twoNextBundle [⟨"next", "aurl"⟩]
    ⟨"next", "burl"⟩ [⟨pbRes⟩] rfl ?_ rfl (by decide) (by decide)⟩
  intro l hl
  have hl2 : l = ⟨"next", "aurl"⟩ := by simpa using hl
  subst hl2
  exact ⟨rfl, by decide, [⟨paRes⟩], by decide⟩

/-- C10: when at least one query parameter is supplied but every
supplied value is falsy, `_build_url` returns the joined base URL and
path followed by a bare trailing `?` with no `name=value` pairs after
it. -/
theorem build_url_all_falsy_query (server_url path : String)
    (ps : List (String × String)) (hne : ps ≠ []) (hall : ∀ p ∈ ps, p.2 = "") :
    build_url server_url path ps = osPathJoin server_url path ++ "?" := by
  have hfilter : ps.filter (fun p => p.2 != "") = [] := by
    apply filter_eq_nil_of_all
    intro p hp
    simp [hall p hp]
  have hps : ps.isEmpty = false := by
    cases ps with
    | nil => exact absurd rfl hne
    | cons a t => rfl
  rw [build_url_eq, hps, queryString_filter_nil ps hfilter]
  simp [String.append_empty]

/-- Witness for C10: two falsy-valued parameters produce the bare
trailing `?`. -/
theorem build_url_all_falsy_query_witness :
    ([("a", ""), ("b", "")] : List (String × String)) ≠ [] ∧
      (∀ p ∈ ([("a", ""), ("b", "")] : List (String × String)), p.2 = "") ∧
      build_url "http://fhir" "Patient" [("a", ""), ("b", "")] =
        osPathJoin "http://fhir" "Patient" ++ "?" :=
  ⟨by decide, by decide,
    build_url_all_falsy_query "http://fhir" "Patient" [("a", ""), ("b", "")]
      (by decide) (by decide)⟩

end FHIR
